import Mathlib

/-!
Verification of the gotree ref/layer graph and mount-lifecycle controller
(`main.go`).

The on-disk state is embedded shallowly:

* the `refs/` directory (one JSON file per ref, keyed by file name) becomes
  an association list `Store := List (String × Ref)`;
* the `mounts/` directory of mount-session records becomes
  `Sessions := List (String × MountInfo)`;
* `os.WriteFile` on an existing key is overwrite-in-place (`saveRef`,
  `saveSession`), `os.Remove` is key removal;
* OS-level effects (`MkdirAll`, `syscall.Mount`, `syscall.Unmount`,
  the `/proc/mounts` text) are supplied by explicit oracle records, so each
  Go function becomes a pure function of the store plus its oracle;
* the `buildLowerDirs` loop of the Go source has no termination guarantee,
  so its embedding takes a fuel argument and returns `none` when the fuel
  is exhausted (one unit of fuel per loop iteration).

Mount points are taken to be already-absolute paths, so `filepath.Abs` is
the identity on them.
-/

namespace GoTree

/-- A ref record, mirroring the Go struct `Ref` (`main.go`). An empty
`parent` string means the ref is a root, exactly as in the Go code. The
`created_at` timestamp plays no role in any claim and is omitted;
`Metadata` is embedded as an association list. -/
structure Ref where
  name : String
  parent : String
  layerID : String
  metadata : List (String × String)
deriving DecidableEq

/-- The `refs/` directory: file base name (without `.json`) paired with the
parsed record. `getRef name` reads `refs/<name>.json`. -/
abbrev Store := List (String × Ref)

/-- Embedding of `getRef`: look up the record stored under `name`. -/
def getRef (s : Store) (name : String) : Option Ref :=
  (s.find? (fun e => e.1 == name)).map (fun e => e.2)

/-- Embedding of `saveRef`: `os.WriteFile` to `refs/<name>.json`, which
overwrites an existing file of that name and otherwise creates it. -/
def saveRef (s : Store) (r : Ref) : Store :=
  if s.any (fun e => e.1 == r.name) then
    s.map (fun e => if e.1 == r.name then (r.name, r) else e)
  else
    s ++ [(r.name, r)]

/-- The forbidden-character set of `validateRefName`. -/
def forbiddenChars : List Char :=
  ['/', '\\', ':', '*', '?', '"', '<', '>', '|']

/-- Embedding of `validateRefName`: `true` means the name is accepted. -/
def validateRefName (name : String) : Bool :=
  if name = "" then false
  else if name.toList.any (fun c => forbiddenChars.contains c) then false
  else true

/-- Error kinds returned by the create operations. -/
inductive CreateErr where
  | invalidName
  | layerFailed
  | parentNotFound
deriving DecidableEq

/-- Embedding of `CreateEmptyRef`. The fresh layer identifier (from
`generateLayerID`, a wall-clock value) is passed in, and `mkdirOk` tells
whether `os.MkdirAll` on the new layer directory succeeds. Note that the
final step is a plain `saveRef`: there is no check that `name` is free. -/
def createEmptyRef (s : Store) (name layerID : String) (mkdirOk : Bool) :
    Except CreateErr Store :=
  if validateRefName name = false then .error .invalidName
  else if mkdirOk = false then .error .layerFailed
  else .ok (saveRef s ⟨name, "", layerID, []⟩)

/-- Embedding of `CreateRefFromParent`: validate, resolve the parent, make
the layer directory, copy the parent's metadata, save. As in the source,
the record's `parent` field is set to the `parent` argument and nothing
checks that `name` is free. -/
def createRefFromParent (s : Store) (name parent layerID : String)
    (mkdirOk : Bool) : Except CreateErr Store :=
  if validateRefName name = false then .error .invalidName
  else
    match getRef s parent with
    | none => .error .parentNotFound
    | some p =>
      if mkdirOk = false then .error .layerFailed
      else .ok (saveRef s ⟨name, parent, layerID, p.metadata⟩)

/-- One step of parent resolution at the name level: the parent name of the
ref stored under `x`, with the empty string meaning "root, stop". -/
def parentStep (s : Store) (x : String) : Option String :=
  match getRef s x with
  | none => none
  | some r => if r.parent = "" then none else some r.parent

/-- Iterated parent resolution: follow `parentStep` for `k` steps. -/
def iterParent (s : Store) : ℕ → String → Option String
  | 0, x => some x
  | k + 1, x =>
    match parentStep s x with
    | none => none
    | some y => iterParent s k y

/-- The store's parent relation is acyclic: no name reaches itself by a
positive number of parent-resolution steps. -/
def Acyclic (s : Store) : Prop :=
  ∀ x k, iterParent s (k + 1) x ≠ some x

theorem find?_cons_pos (p : String × Ref → Bool) (a : String × Ref)
    (l : List (String × Ref)) (h : p a = true) :
    (a :: l).find? p = some a := by
  simp [List.find?, h]

theorem find?_cons_neg (p : String × Ref → Bool) (a : String × Ref)
    (l : List (String × Ref)) (h : p a = false) :
    (a :: l).find? p = l.find? p := by
  simp [List.find?, h]

theorem find?_map_replace (r : Ref) :
    ∀ s : Store, s.any (fun e => e.1 == r.name) = true →
      (s.map (fun e => if e.1 == r.name then (r.name, r) else e)).find?
          (fun e => e.1 == r.name) = some (r.name, r) := by
  intro s hs
  induction s with
  | nil => simp at hs
  | cons e t ih =>
    by_cases he : (e.1 == r.name) = true
    · rw [List.map_cons, if_pos he,
        find?_cons_pos (fun e => e.1 == r.name) (r.name, r) _ (by simp)]
    · have he0 : (e.1 == r.name) = false := Bool.eq_false_iff.mpr he
      have ht : t.any (fun e => e.1 == r.name) = true := by
        simp only [List.any_cons, Bool.or_eq_true] at hs
        rcases hs with h | h
        · exact absurd h he
        · exact h
      rw [List.map_cons, if_neg he,
        find?_cons_neg (fun e => e.1 == r.name) e _ he0]
      exact ih ht

theorem find?_map_other (r : Ref) (x : String) (hx : x ≠ r.name) :
    ∀ s : Store,
      (s.map (fun e => if e.1 == r.name then (r.name, r) else e)).find?
          (fun e => e.1 == x) = s.find? (fun e => e.1 == x) := by
  intro s
  induction s with
  | nil => rfl
  | cons e t ih =>
    by_cases he : (e.1 == r.name) = true
    · have he' : e.1 = r.name := by simpa [beq_iff_eq] using he
      have h1 : (((r.name, r) : String × Ref).1 == x) = false := by
        simp only [beq_eq_false_iff_ne, ne_eq]
        exact fun h => hx h.symm
      have h2 : (e.1 == x) = false := by
        simp only [beq_eq_false_iff_ne, ne_eq, he']
        exact fun h => hx h.symm
      rw [List.map_cons, if_pos he,
        find?_cons_neg (fun e => e.1 == x) (r.name, r) _ h1,
        find?_cons_neg (fun e => e.1 == x) e _ h2]
      exact ih
    · by_cases hex : (e.1 == x) = true
      · rw [List.map_cons, if_neg he,
          find?_cons_pos (fun e => e.1 == x) e _ hex,
          find?_cons_pos (fun e => e.1 == x) e _ hex]
      · have hex0 : (e.1 == x) = false := Bool.eq_false_iff.mpr hex
        rw [List.map_cons, if_neg he,
          find?_cons_neg (fun e => e.1 == x) e _ hex0,
          find?_cons_neg (fun e => e.1 == x) e _ hex0]
        exact ih

theorem find?_append_none {p : String × Ref → Bool} {s : Store}
    (h : s.find? p = none) (l : Store) :
    (s ++ l).find? p = l.find? p := by
  induction s with
  | nil => rfl
  | cons e t ih =>
    have he : p e = false := by
      cases hpe : p e
      · rfl
      · rw [find?_cons_pos p e t hpe] at h
        exact absurd h (Option.some_ne_none _)
    rw [find?_cons_neg p e t he] at h
    rw [List.cons_append, find?_cons_neg p e (t ++ l) he]
    exact ih h

theorem find?_append_some {p : String × Ref → Bool} {s : Store}
    {e : String × Ref} (h : s.find? p = some e) (l : Store) :
    (s ++ l).find? p = some e := by
  induction s with
  | nil => simp [List.find?] at h
  | cons a t ih =>
    cases ha : p a
    · rw [find?_cons_neg p a t ha] at h
      rw [List.cons_append, find?_cons_neg p a (t ++ l) ha]
      exact ih h
    · rw [find?_cons_pos p a t ha] at h
      rw [List.cons_append, find?_cons_pos p a (t ++ l) ha]
      exact h

theorem getRef_saveRef_same (s : Store) (r : Ref) :
    getRef (saveRef s r) r.name = some r := by
  unfold getRef saveRef
  by_cases hs : s.any (fun e => e.1 == r.name)
  · simp only [hs, if_true]
    rw [find?_map_replace r s hs]
    rfl
  · simp only [hs, Bool.false_eq_true, if_false]
    have hnone : s.find? (fun e => e.1 == r.name) = none := by
      rw [List.find?_eq_none]
      intro a ha hpa
      have : s.any (fun e => e.1 == r.name) = true :=
        List.any_eq_true.mpr ⟨a, ha, hpa⟩
      simp [this] at hs
    rw [find?_append_none hnone]
    rw [find?_cons_pos (fun e => e.1 == r.name) (r.name, r) [] (by simp)]
    rfl

theorem getRef_saveRef_other (s : Store) (r : Ref) (x : String)
    (hx : x ≠ r.name) : getRef (saveRef s r) x = getRef s x := by
  unfold getRef saveRef
  by_cases hs : s.any (fun e => e.1 == r.name)
  · simp only [hs, if_true]
    rw [find?_map_other r x hx s]
  · simp only [hs, Bool.false_eq_true, if_false]
    cases hf : s.find? (fun e => e.1 == x) with
    | some e => rw [find?_append_some hf]
    | none =>
      rw [find?_append_none hf]
      have h1 : (((r.name, r) : String × Ref).1 == x) = false := by
        simp only [beq_eq_false_iff_ne, ne_eq]
        exact fun h => hx h.symm
      rw [find?_cons_neg (fun e => e.1 == x) (r.name, r) [] h1]
      rfl

theorem getRef_mem (s : Store) (x : String) (rx : Ref)
    (h : getRef s x = some rx) : ∃ e, e ∈ s ∧ e.1 = x ∧ e.2 = rx := by
  unfold getRef at h
  cases hf : s.find? (fun e => e.1 == x) with
  | none => rw [hf] at h; simp at h
  | some e =>
    rw [hf] at h
    simp at h
    refine ⟨e, List.mem_of_find?_eq_some hf, ?_, h⟩
    have := List.find?_some hf
    simpa [beq_iff_eq] using this

theorem parentStep_saveRef_other (s : Store) (r : Ref) (x : String)
    (hx : x ≠ r.name) : parentStep (saveRef s r) x = parentStep s x := by
  unfold parentStep
  rw [getRef_saveRef_other s r x hx]

/-- Any resolution chain in the store after saving a parentless record is
already a chain of the original store: the only modified name has no
outgoing edge, so it can never occur as the source of a step. -/
theorem iterParent_saveRoot (s : Store) (r : Ref) (hr : r.parent = "") :
    ∀ k x z, iterParent (saveRef s r) k x = some z →
      iterParent s k x = some z := by
  intro k
  induction k with
  | zero => intro x z h; exact h
  | succ k ih =>
    intro x z h
    unfold iterParent at h
    cases hp : parentStep (saveRef s r) x with
    | none => rw [hp] at h; simp at h
    | some y =>
      rw [hp] at h
      have hx : x ≠ r.name := by
        intro hxe
        rw [hxe] at hp
        unfold parentStep at hp
        rw [getRef_saveRef_same s r] at hp
        simp [hr] at hp
      rw [parentStep_saveRef_other s r x hx] at hp
      have := ih y z h
      unfold iterParent
      rw [hp]
      exact this

/-- Saving a record with an empty parent preserves acyclicity, whether it
overwrites an existing name or appends a new one. -/
theorem acyclic_saveRoot (s : Store) (r : Ref) (hr : r.parent = "")
    (h : Acyclic s) : Acyclic (saveRef s r) := by
  intro x k hcyc
  exact h x k (iterParent_saveRoot s r hr (k + 1) x x hcyc)

/-- Chains of the store after saving a completely fresh record, started
anywhere other than the fresh name, are chains of the original store and
never reach the fresh name (no pre-existing record names it as parent). -/
theorem iterParent_saveChild (s : Store) (r : Ref)
    (hin : ∀ e ∈ s, e.2.parent ≠ r.name) :
    ∀ k x z, x ≠ r.name → iterParent (saveRef s r) k x = some z →
      iterParent s k x = some z ∧ z ≠ r.name := by
  intro k
  induction k with
  | zero =>
    intro x z hx h
    simp [iterParent] at h
    exact ⟨by simp [iterParent, h], by rw [← h]; exact hx⟩
  | succ k ih =>
    intro x z hx h
    unfold iterParent at h
    cases hp : parentStep (saveRef s r) x with
    | none => rw [hp] at h; simp at h
    | some y =>
      rw [hp] at h
      rw [parentStep_saveRef_other s r x hx] at hp
      have hy : y ≠ r.name := by
        unfold parentStep at hp
        cases hg : getRef s x with
        | none => rw [hg] at hp; simp at hp
        | some rx =>
          rw [hg] at hp
          by_cases hpe : rx.parent = ""
          · simp [hpe] at hp
          · simp [hpe] at hp
            obtain ⟨e, hes, _, he2⟩ := getRef_mem s x rx hg
            rw [← hp]
            rw [← he2] at hpe ⊢
            exact hin e hes
      obtain ⟨h1, h2⟩ := ih y z hy h
      refine ⟨?_, h2⟩
      unfold iterParent
      rw [hp]
      exact h1

/-- Saving a fresh record (name not present and not referenced as any
existing record's parent) preserves acyclicity, whatever its parent is. -/
theorem acyclic_saveChild (s : Store) (r : Ref)
    (hin : ∀ e ∈ s, e.2.parent ≠ r.name)
    (hpn : r.parent ≠ r.name)
    (h : Acyclic s) : Acyclic (saveRef s r) := by
  intro x k hcyc
  by_cases hx : x = r.name
  · subst hx
    have hstep : parentStep (saveRef s r) r.name
        = if r.parent = "" then none else some r.parent := by
      unfold parentStep
      rw [getRef_saveRef_same s r]
    by_cases hr : r.parent = ""
    · rw [iterParent, hstep, if_pos hr] at hcyc
      exact absurd hcyc (by simp)
    · rw [iterParent, hstep, if_neg hr] at hcyc
      have := iterParent_saveChild s r hin k r.parent r.name hpn hcyc
      exact this.2 rfl
  · have := iterParent_saveChild s r hin (k + 1) x x hx hcyc
    exact h x k this.1

theorem iterParent_succ (s : Store) (k : ℕ) (x : String) :
    iterParent s (k + 1) x
      = match parentStep s x with
        | none => none
        | some y => iterParent s k y := rfl

/-- A tree-building operation of the Ref Graph Manager: `createRoot` is
`CreateEmptyRef`, `createChild` is `CreateRefFromParent`, each carrying the
fresh layer identifier the Go code draws from the clock. -/
inductive Op where
  | createRoot (name layerID : String)
  | createChild (name parent layerID : String)

/-- Run one operation against the store; a failing operation leaves the
store unchanged (the Go functions return an error before any `saveRef`).
Layer-directory creation is taken to succeed. -/
def applyOp (s : Store) : Op → Store
  | .createRoot n lid =>
    match createEmptyRef s n lid true with
    | .ok s2 => s2
    | .error _ => s
  | .createChild n p lid =>
    match createRefFromParent s n p lid true with
    | .ok s2 => s2
    | .error _ => s

/-- Run a sequence of operations left to right. -/
def applyOps (s : Store) : List Op → Store
  | [] => s
  | op :: rest => applyOps (applyOp s op) rest

/-- A name is completely fresh for a store: no ref file is stored under it
and no stored record lists it as parent. -/
def nameFreshB (s : Store) (n : String) : Bool :=
  (getRef s n).isNone && s.all (fun e => e.2.parent != n)

/-- Every `createChild` in the sequence uses, at the moment it runs, a
completely fresh name. -/
def opsFreshB : Store → List Op → Bool
  | _, [] => true
  | s, op :: rest =>
    (match op with
     | .createRoot _ _ => true
     | .createChild n _ _ => nameFreshB s n) && opsFreshB (applyOp s op) rest

theorem acyclic_applyOp (s : Store) (op : Op) (h : Acyclic s)
    (hf : (match op with
           | .createRoot _ _ => true
           | .createChild n _ _ => nameFreshB s n) = true) :
    Acyclic (applyOp s op) := by
  cases op with
  | createRoot n lid =>
    simp only [applyOp, createEmptyRef]
    by_cases hv : validateRefName n = false
    · rw [if_pos hv]
      exact h
    · rw [if_neg hv, if_neg (by simp : ¬ ((true : Bool) = false))]
      exact acyclic_saveRoot s ⟨n, "", lid, []⟩ rfl h
  | createChild n p lid =>
    have hf' : ((getRef s n).isNone
        && s.all (fun e => e.2.parent != n)) = true := hf
    rw [Bool.and_eq_true] at hf'
    have hfr : getRef s n = none := Option.isNone_iff_eq_none.mp hf'.1
    have hin : ∀ e ∈ s, e.2.parent ≠ n := by
      intro e he
      have := List.all_eq_true.mp hf'.2 e he
      simpa [bne_iff_ne] using this
    simp only [applyOp, createRefFromParent]
    by_cases hv : validateRefName n = false
    · rw [if_pos hv]
      exact h
    · rw [if_neg hv]
      cases hg : getRef s p with
      | none => exact h
      | some q =>
        have hpn : p ≠ n := by
          intro he
          rw [he, hfr] at hg
          exact Option.noConfusion hg
        exact acyclic_saveChild s ⟨n, p, lid, q.metadata⟩ hin hpn h

/-- Claim C3, amended: sequences of `CreateEmptyRef` / `CreateRefFromParent`
preserve acyclicity of the parent relation provided every `createChild`
uses a completely fresh name — one that neither keys an existing ref record
nor occurs as any existing record's parent. (Without that freshness
condition the claim is false: `saveRef` silently overwrites an existing
record, so `CreateRefFromParent` can re-parent an existing ref and close a
cycle, see the counterexample.) -/
theorem C3_fresh_create_ops_preserve_acyclicity (s : Store) (ops : List Op)
    (h : Acyclic s) (hf : opsFreshB s ops = true) :
    Acyclic (applyOps s ops) := by
  induction ops generalizing s with
  | nil => exact h
  | cons op rest ih =>
    unfold opsFreshB at hf
    rw [Bool.and_eq_true] at hf
    exact ih (applyOp s op) (acyclic_applyOp s op h hf.1) hf.2

theorem iterParent_succ_none (s : Store) (k : ℕ) (x : String)
    (h : parentStep s x = none) : iterParent s (k + 1) x = none := by
  rw [iterParent_succ, h]

theorem iterParent_succ_some (s : Store) (k : ℕ) (x y : String)
    (h : parentStep s x = some y) :
    iterParent s (k + 1) x = iterParent s k y := by
  rw [iterParent_succ, h]

theorem acyclic_nil : Acyclic ([] : Store) := by
  intro x k h
  rw [iterParent_succ_none ([] : Store) k x rfl] at h
  exact absurd h (by simp)

/-- The two-ref demonstration store: a root `base` and its child `dev`. -/
def demoStore : Store :=
  [("base", ⟨"base", "", "L0", []⟩), ("dev", ⟨"dev", "base", "L1", []⟩)]

theorem getRef_demoStore_other (x : String) (h1 : x ≠ "base")
    (h2 : x ≠ "dev") : getRef demoStore x = none := by
  unfold getRef demoStore
  rw [find?_cons_neg _ _ _ (by
    simp only [beq_eq_false_iff_ne, ne_eq]
    exact fun h => h1 h.symm)]
  rw [find?_cons_neg _ _ _ (by
    simp only [beq_eq_false_iff_ne, ne_eq]
    exact fun h => h2 h.symm)]
  rfl

theorem acyclic_demoStore : Acyclic demoStore := by
  intro x k h
  by_cases h1 : x = "base"
  · subst h1
    rw [iterParent_succ_none demoStore k "base" (by decide)] at h
    exact absurd h (by simp)
  by_cases h2 : x = "dev"
  · subst h2
    rw [iterParent_succ_some demoStore k "dev" "base" (by decide)] at h
    cases k with
    | zero => exact absurd h (by decide)
    | succ k =>
      rw [iterParent_succ_none demoStore k "base" (by decide)] at h
      exact absurd h (by simp)
  · have hg : parentStep demoStore x = none := by
      unfold parentStep
      rw [getRef_demoStore_other x h1 h2]
    rw [iterParent_succ_none demoStore k x hg] at h
    exact absurd h (by simp)

/-- Claim C3, counterexample: from the acyclic store `{base, dev→base}`,
the single legal operation `CreateRefFromParent("base", "dev")` succeeds
(the parent `dev` exists and the name validates), silently overwrites the
record of `base`, and produces the cycle `base → dev → base`. -/
theorem C3_counterexample :
    Acyclic demoStore ∧
      ¬ Acyclic (applyOps demoStore [Op.createChild "base" "dev" "L2"]) := by
  refine ⟨acyclic_demoStore, fun h => ?_⟩
  exact h "base" 1 (by decide)

/-- Witness for the amended claim C3 at a concrete input: building `base`
then `dev` from the empty store satisfies the freshness condition and the
result is acyclic. -/
theorem C3_witness :
    opsFreshB [] [Op.createRoot "base" "L0",
        Op.createChild "dev" "base" "L1"] = true ∧
      Acyclic (applyOps []
        [Op.createRoot "base" "L0", Op.createChild "dev" "base" "L1"]) :=
  ⟨by decide,
    C3_fresh_create_ops_preserve_acyclicity []
      [Op.createRoot "base" "L0", Op.createChild "dev" "base" "L1"]
      acyclic_nil (by decide)⟩

/-- Claim C1, counterexample: in `demoStore` the name `base` is already
taken, yet `CreateEmptyRef` returns success (there is no `AlreadyExists`
check anywhere on the path) and the pre-existing record — layer `L0` — is
replaced by a fresh record with layer `L9`. -/
theorem C1_counterexample :
    getRef demoStore "base" = some ⟨"base", "", "L0", []⟩ ∧
      createEmptyRef demoStore "base" "L9" true
        = .ok (saveRef demoStore ⟨"base", "", "L9", []⟩) ∧
      getRef (saveRef demoStore ⟨"base", "", "L9", []⟩) "base"
        = some ⟨"base", "", "L9", []⟩ :=
  ⟨by decide, rfl, by decide⟩

/-- Claim C1, amended: for any store and any name passing
`validateRefName`, `CreateEmptyRef` succeeds — also when the name is
already taken — and afterwards the store maps the name to the freshly
created parentless record, silently replacing any previous record. -/
theorem C1_createEmptyRef_overwrites (s : Store) (name lid : String)
    (hv : validateRefName name = true) :
    createEmptyRef s name lid true = .ok (saveRef s ⟨name, "", lid, []⟩) ∧
      getRef (saveRef s ⟨name, "", lid, []⟩) name
        = some ⟨name, "", lid, []⟩ := by
  constructor
  · unfold createEmptyRef
    rw [if_neg (by simp [hv]), if_neg (by simp)]
  · exact getRef_saveRef_same s ⟨name, "", lid, []⟩

/-- Witness for the amended claim C1 at a concrete input. -/
theorem C1_witness :
    validateRefName "scratch" = true ∧
      (createEmptyRef demoStore "scratch" "L7" true
          = .ok (saveRef demoStore ⟨"scratch", "", "L7", []⟩) ∧
        getRef (saveRef demoStore ⟨"scratch", "", "L7", []⟩) "scratch"
          = some ⟨"scratch", "", "L7", []⟩) :=
  ⟨by decide, C1_createEmptyRef_overwrites demoStore "scratch" "L7" (by decide)⟩

/-- The layer directory of a layer id, `filepath.Join(repoPath, "layers", id)`. -/
def layerPath (repo id : String) : String :=
  repo ++ "/layers/" ++ id

/-- The work directory of a layer id, `filepath.Join(repoPath, "work", id)`. -/
def workPath (repo id : String) : String :=
  repo ++ "/work/" ++ id

/-- Embedding of `buildLowerDirs`, one unit of fuel per iteration of the Go
`for` loop; `none` means the loop has not finished within `fuel`
iterations. The loop stops normally on an empty parent (root) or on the
first unresolved parent, and otherwise appends the parent's layer
directory and continues from the parent — there is no cycle guard. -/
def buildLowerDirs (s : Store) (repo : String) : Ref → ℕ → Option (List String)
  | r, fuel =>
    if r.parent = "" then some []
    else
      match getRef s r.parent with
      | none => some []
      | some p =>
        match fuel with
        | 0 => none
        | fuel' + 1 =>
          (buildLowerDirs s repo p fuel').map
            (fun ds => layerPath repo p.layerID :: ds)

/-- The ancestry chain, written from the data model of the spec: the
`i`-th ancestor of a ref (the ref itself for `i = 0`), following `parent`
links through the store, undefined past a root or an unresolved parent. -/
def nthAncestor (s : Store) (r : Ref) : ℕ → Option Ref
  | 0 => some r
  | i + 1 =>
    (nthAncestor s r i).bind
      (fun q => if q.parent = "" then none else getRef s q.parent)

/-- The ancestry traversal of `buildLowerDirs` reaches its normal exit
within some number of loop iterations. -/
def BuildTerminates (s : Store) (repo : String) (r : Ref) : Prop :=
  ∃ fuel, (buildLowerDirs s repo r fuel).isSome

/-- A store consisting of the single self-parented ref `a`, as produced
for example by `CreateRefFromParent("a", "a")` over a store holding `a`. -/
def loopStore : Store :=
  [("a", ⟨"a", "a", "LA", []⟩)]

/-- The record stored in `loopStore`. -/
def loopRef : Ref :=
  ⟨"a", "a", "LA", []⟩

theorem buildLowerDirs_loop_eq (f : ℕ) :
    buildLowerDirs loopStore "repo" loopRef (f + 1)
      = (buildLowerDirs loopStore "repo" loopRef f).map
          (fun ds => layerPath "repo" loopRef.layerID :: ds) := by
  conv_lhs => rw [buildLowerDirs]
  rw [if_neg (by decide : ¬ (loopRef.parent = ""))]
  rw [show getRef loopStore loopRef.parent = some loopRef by decide]

theorem buildLowerDirs_loop_none :
    ∀ fuel, buildLowerDirs loopStore "repo" loopRef fuel = none := by
  intro fuel
  induction fuel with
  | zero => decide
  | succ f ih =>
    rw [buildLowerDirs_loop_eq f, ih]
    rfl

/-- Claim C4, counterexample: on the single-ref store whose ref `a` lists
itself as parent — the layer identifier repeats immediately — the
`buildLowerDirs` traversal never reaches its exit: it has no cycle guard
at all (the repeat check exists only in the `size` command's separate
traversal). -/
theorem C4_counterexample : ¬ BuildTerminates loopStore "repo" loopRef := by
  rintro ⟨fuel, hf⟩
  rw [buildLowerDirs_loop_none fuel] at hf
  exact absurd hf (by simp)

theorem iterParent_add (s : Store) :
    ∀ i j x, iterParent s (i + j) x
      = (iterParent s i x).bind (fun y => iterParent s j y) := by
  intro i
  induction i with
  | zero =>
    intro j x
    rw [Nat.zero_add]
    rfl
  | succ i ih =>
    intro j x
    have hadd : i + 1 + j = (i + j) + 1 := by omega
    rw [hadd]
    cases hp : parentStep s x with
    | none =>
      rw [iterParent_succ_none s (i + j) x hp, iterParent_succ_none s i x hp]
      rfl
    | some y =>
      rw [iterParent_succ_some s (i + j) x y hp,
        iterParent_succ_some s i x y hp]
      exact ih j y

theorem iterParent_le_inj (s : Store) (h : Acyclic s) {i j : ℕ} {x y : String}
    (hij : i ≤ j) (hi : iterParent s i x = some y)
    (hj : iterParent s j x = some y) : i = j := by
  obtain ⟨d, rfl⟩ := Nat.exists_eq_add_of_le hij
  cases d with
  | zero => rfl
  | succ d =>
    exfalso
    rw [iterParent_add s i (d + 1) x, hi] at hj
    exact h y d (by simpa using hj)

theorem iterParent_eq_of_some (s : Store) (h : Acyclic s) {i j : ℕ}
    {x y : String} (hi : iterParent s i x = some y)
    (hj : iterParent s j x = some y) : i = j := by
  rcases Nat.le_total i j with hle | hle
  · exact iterParent_le_inj s h hle hi hj
  · exact (iterParent_le_inj s h hle hj hi).symm

theorem build_none_shape (s : Store) (repo : String) (r : Ref) (m : ℕ)
    (h : buildLowerDirs s repo r m = none) :
    r.parent ≠ "" ∧ ∃ p, getRef s r.parent = some p ∧
      (m = 0 ∨ ∃ m', m = m' + 1 ∧ buildLowerDirs s repo p m' = none) := by
  rw [buildLowerDirs] at h
  by_cases hr : r.parent = ""
  · rw [if_pos hr] at h
    exact absurd h (by simp)
  · rw [if_neg hr] at h
    refine ⟨hr, ?_⟩
    cases hg : getRef s r.parent with
    | none =>
      rw [hg] at h
      exact absurd h (by simp)
    | some p =>
      rw [hg] at h
      refine ⟨p, rfl, ?_⟩
      cases m with
      | zero => exact Or.inl rfl
      | succ m' =>
        right
        refine ⟨m', rfl, ?_⟩
        replace h : (buildLowerDirs s repo p m').map
            (fun ds => layerPath repo p.layerID :: ds) = none := h
        cases hb : buildLowerDirs s repo p m' with
        | none => rfl
        | some ds =>
          rw [hb] at h
          exact absurd h (by simp)

/-- If the `buildLowerDirs` loop is still running after `m` iterations,
then parent resolution from the starting ref's parent name yields, for
every `i ≤ m`, an `i`-th name that resolves in the store. -/
theorem build_none_chain (s : Store) (repo : String) :
    ∀ m r, buildLowerDirs s repo r m = none →
      ∀ i, i ≤ m → ∃ y, iterParent s i r.parent = some y ∧
        getRef s y ≠ none := by
  intro m
  induction m with
  | zero =>
    intro r h i hi
    have hi0 : i = 0 := Nat.le_zero.mp hi
    subst hi0
    obtain ⟨hr, p, hp, _⟩ := build_none_shape s repo r 0 h
    exact ⟨r.parent, rfl, by rw [hp]; simp⟩
  | succ m ih =>
    intro r h i hi
    obtain ⟨hr, p, hp, hrest⟩ := build_none_shape s repo r (m + 1) h
    rcases hrest with h0 | ⟨m', hm', hb⟩
    · omega
    · have hmm : m' = m := by omega
      rw [hmm] at hb
      cases i with
      | zero => exact ⟨r.parent, rfl, by rw [hp]; simp⟩
      | succ j =>
        have hj : j ≤ m := by omega
        obtain ⟨y, hy, hgy⟩ := ih p hb j hj
        obtain ⟨hpp, _⟩ := build_none_shape s repo p m hb
        have hstep : parentStep s r.parent = some p.parent := by
          unfold parentStep
          rw [hp]
          exact if_neg hpp
        rw [iterParent_succ_some s j r.parent p.parent hstep]
        exact ⟨y, hy, hgy⟩

/-- On an acyclic store the `buildLowerDirs` loop exits within
`s.length` iterations: the names its iterations resolve are pairwise
distinct keys of the store, and there are only `s.length` keys. -/
theorem build_terminates_of_acyclic (s : Store) (repo : String) (r : Ref)
    (h : Acyclic s) : buildLowerDirs s repo r s.length ≠ none := by
  intro hnone
  have hM := build_none_chain s repo s.length r hnone
  have hL : ∀ i ∈ List.range (s.length + 1),
      iterParent s i r.parent
          = some ((iterParent s i r.parent).getD "")
        ∧ getRef s ((iterParent s i r.parent).getD "") ≠ none := by
    intro i hi
    have hi' : i ≤ s.length := by
      have := List.mem_range.mp hi
      omega
    obtain ⟨y, hy, hgy⟩ := hM i hi'
    rw [hy]
    exact ⟨rfl, hgy⟩
  have hnodup : ((List.range (s.length + 1)).map
      (fun i => (iterParent s i r.parent).getD "")).Nodup := by
    refine List.Nodup.map_on ?_ (List.nodup_range _)
    intro i hi j hj hfij
    obtain ⟨hyi, _⟩ := hL i hi
    obtain ⟨hyj, _⟩ := hL j hj
    rw [hfij] at hyi
    exact iterParent_eq_of_some s h hyi hyj
  have hsub : ((List.range (s.length + 1)).map
      (fun i => (iterParent s i r.parent).getD ""))
        ⊆ s.map (fun e => e.1) := by
    intro z hz
    obtain ⟨i, hi, rfl⟩ := List.mem_map.mp hz
    obtain ⟨_, hg⟩ := hL i hi
    cases hgr : getRef s ((iterParent s i r.parent).getD "") with
    | none => exact absurd hgr hg
    | some q =>
      obtain ⟨e, he, he1, _⟩ := getRef_mem s _ q hgr
      exact List.mem_map.mpr ⟨e, he, he1⟩
  have hlen := (hnodup.subperm hsub).length_le
  simp only [List.length_map, List.length_range] at hlen
  omega

/-- Claim C4, amended: the `buildLowerDirs` traversal terminates on every
store whose parent relation is acyclic — within `s.length` loop
iterations — and it halts immediately (returning the layer directories
collected so far) on the first unresolved parent; but it carries no
layer-identifier cycle guard, and on a store with a parent cycle it never
terminates (see the counterexample; the repeat-guard of the spec exists
only in the `size` command's traversal). -/
theorem C4_buildLowerDirs_terminates_on_acyclic (s : Store) (repo : String)
    (r : Ref) (h : Acyclic s) :
    (buildLowerDirs s repo r s.length).isSome = true ∧
      (∀ fuel, getRef s r.parent = none →
        buildLowerDirs s repo r fuel = some []) := by
  constructor
  · cases hb : buildLowerDirs s repo r s.length with
    | none => exact absurd hb (build_terminates_of_acyclic s repo r h)
    | some ds => rfl
  · intro fuel hg
    rw [buildLowerDirs]
    by_cases hr : r.parent = ""
    · rw [if_pos hr]
    · rw [if_neg hr, hg]

/-- Witness for the amended claim C4 at a concrete input: the demo store
is acyclic, and the traversal for `dev` finishes within 2 iterations. -/
theorem C4_witness :
    (buildLowerDirs demoStore "repo" ⟨"dev", "base", "L1", []⟩
        demoStore.length).isSome = true ∧
      (∀ fuel, getRef demoStore (Ref.parent ⟨"dev", "base", "L1", []⟩) = none →
        buildLowerDirs demoStore "repo" ⟨"dev", "base", "L1", []⟩ fuel
          = some []) :=
  C4_buildLowerDirs_terminates_on_acyclic demoStore "repo"
    ⟨"dev", "base", "L1", []⟩ acyclic_demoStore

/-- The overlayfs option string `Mount` builds
(`lowerdir=…,upperdir=…,workdir=…`): with a non-empty lower list the
lower directories are joined with `:`; with an empty lower list the upper
directory doubles as the sole lower directory. -/
def overlayOpts (lowerDirs : List String) (upperDir workDir : String) :
    String :=
  if 0 < lowerDirs.length then
    "lowerdir=" ++ String.intercalate ":" lowerDirs
      ++ ",upperdir=" ++ upperDir ++ ",workdir=" ++ workDir
  else
    "lowerdir=" ++ upperDir ++ ",upperdir=" ++ upperDir
      ++ ",workdir=" ++ workDir

/-- The option string `Mount` passes to the overlay mount for a given ref:
lower list from `buildLowerDirs`, upper and work directory derived from
the ref's own layer id; `none` if the lower-directory loop does not finish
within `fuel`. -/
def mountOptsFor (s : Store) (repo : String) (r : Ref) (fuel : ℕ) :
    Option String :=
  (buildLowerDirs s repo r fuel).map
    (fun dirs =>
      overlayOpts dirs (layerPath repo r.layerID) (workPath repo r.layerID))

theorem nthAncestor_succ_head (s : Store) (r : Ref) :
    ∀ j, nthAncestor s r (j + 1)
      = match (if r.parent = "" then none else getRef s r.parent) with
        | none => none
        | some p => nthAncestor s p j := by
  intro j
  induction j with
  | zero =>
    show (nthAncestor s r 0).bind _ = _
    cases hif : (if r.parent = "" then none else getRef s r.parent) with
    | none =>
      show (some r).bind
        (fun q => if q.parent = "" then none else getRef s q.parent) = none
      rw [Option.some_bind]
      exact hif
    | some p =>
      show (some r).bind
          (fun q => if q.parent = "" then none else getRef s q.parent)
        = some p
      rw [Option.some_bind]
      exact hif
  | succ j ih =>
    show (nthAncestor s r (j + 1)).bind _ = _
    rw [ih]
    cases hif : (if r.parent = "" then none else getRef s r.parent) with
    | none => rfl
    | some p => rfl

/-- The lower-directory list produced by `buildLowerDirs` lists, position
by position, the layer directories of the successive ancestors: entry `i`
is the layer directory of the `(i+1)`-st ancestor of the ref. -/
theorem buildLowerDirs_nthAncestor (s : Store) (repo : String) :
    ∀ fuel r dirs, buildLowerDirs s repo r fuel = some dirs →
      ∀ i, i < dirs.length →
        ∃ a, nthAncestor s r (i + 1) = some a ∧
          dirs.get? i = some (layerPath repo a.layerID) := by
  intro fuel
  induction fuel with
  | zero =>
    intro r dirs h i hi
    rw [buildLowerDirs] at h
    by_cases hr : r.parent = ""
    · rw [if_pos hr] at h
      obtain rfl : ([] : List String) = dirs := by simpa using h
      simp at hi
    · rw [if_neg hr] at h
      cases hg : getRef s r.parent with
      | none =>
        rw [hg] at h
        obtain rfl : ([] : List String) = dirs := by simpa using h
        simp at hi
      | some p =>
        rw [hg] at h
        exact absurd h (by simp)
  | succ fuel ih =>
    intro r dirs h i hi
    rw [buildLowerDirs] at h
    by_cases hr : r.parent = ""
    · rw [if_pos hr] at h
      obtain rfl : ([] : List String) = dirs := by simpa using h
      simp at hi
    · rw [if_neg hr] at h
      cases hg : getRef s r.parent with
      | none =>
        rw [hg] at h
        obtain rfl : ([] : List String) = dirs := by simpa using h
        simp at hi
      | some p =>
        rw [hg] at h
        replace h : (buildLowerDirs s repo p fuel).map
            (fun ds => layerPath repo p.layerID :: ds) = some dirs := h
        cases hb : buildLowerDirs s repo p fuel with
        | none =>
          rw [hb] at h
          exact absurd h (by simp)
        | some ds =>
          rw [hb] at h
          obtain rfl : layerPath repo p.layerID :: ds = dirs := by
            simpa using h
          have hstep : (if r.parent = "" then none else getRef s r.parent)
              = some p := by
            rw [if_neg hr]
            exact hg
          cases i with
          | zero =>
            refine ⟨p, ?_, rfl⟩
            rw [nthAncestor_succ_head s r 0, hstep]
            rfl
          | succ i' =>
            have hi' : i' < ds.length := by
              simpa using Nat.lt_of_succ_lt_succ hi
            obtain ⟨a, ha, hd⟩ := ih p ds hb i' hi'
            refine ⟨a, ?_, hd⟩
            rw [nthAncestor_succ_head s r (i' + 1), hstep]
            exact ha

/-- Claim C5: whenever the ancestry traversal finishes (in particular on
any cycle-free chain), `Mount` composes the overlay with the ref's own
layer directory as the upper (writable) layer, the ancestors' layer
directories as the lower list ordered from nearest parent to root (the
`i`-th lower entry belongs to the `(i+1)`-st ancestor), and for a root
ref with no parent the lower list is empty, so the option string uses the
ref's own layer directory as both the sole lower and the upper layer. -/
theorem C5_mount_overlay_composition (s : Store) (repo : String) (r : Ref)
    (fuel : ℕ) (dirs : List String)
    (h : buildLowerDirs s repo r fuel = some dirs) :
    (∀ i, i < dirs.length →
        ∃ a, nthAncestor s r (i + 1) = some a ∧
          dirs.get? i = some (layerPath repo a.layerID)) ∧
      mountOptsFor s repo r fuel
        = some (overlayOpts dirs (layerPath repo r.layerID)
            (workPath repo r.layerID)) ∧
      (r.parent = "" → dirs = [] ∧
        overlayOpts dirs (layerPath repo r.layerID) (workPath repo r.layerID)
          = "lowerdir=" ++ layerPath repo r.layerID
            ++ ",upperdir=" ++ layerPath repo r.layerID
            ++ ",workdir=" ++ workPath repo r.layerID) := by
  refine ⟨buildLowerDirs_nthAncestor s repo fuel r dirs h, ?_, ?_⟩
  · unfold mountOptsFor
    rw [h]
    rfl
  · intro hr
    have hdirs : dirs = [] := by
      rw [buildLowerDirs, if_pos hr] at h
      simpa using h.symm
    subst hdirs
    exact ⟨rfl, rfl⟩

/-- Witness for claim C5 at a concrete input: mounting `dev` over the demo
store produces the single lower directory of `base` and the matching
option string. -/
theorem C5_witness :
    buildLowerDirs demoStore "repo" ⟨"dev", "base", "L1", []⟩ 3
        = some ["repo/layers/L0"] ∧
      ((∀ i, i < (["repo/layers/L0"] : List String).length →
          ∃ a, nthAncestor demoStore ⟨"dev", "base", "L1", []⟩ (i + 1) = some a ∧
            (["repo/layers/L0"] : List String).get? i
              = some (layerPath "repo" a.layerID)) ∧
        mountOptsFor demoStore "repo" ⟨"dev", "base", "L1", []⟩ 3
          = some (overlayOpts ["repo/layers/L0"]
              (layerPath "repo" "L1") (workPath "repo" "L1")) ∧
        (Ref.parent ⟨"dev", "base", "L1", []⟩ = "" →
          (["repo/layers/L0"] : List String) = [] ∧
          overlayOpts ["repo/layers/L0"]
              (layerPath "repo" "L1") (workPath "repo" "L1")
            = "lowerdir=" ++ layerPath "repo" "L1"
              ++ ",upperdir=" ++ layerPath "repo" "L1"
              ++ ",workdir=" ++ workPath "repo" "L1")) :=
  ⟨by decide,
    C5_mount_overlay_composition demoStore "repo" ⟨"dev", "base", "L1", []⟩
      3 ["repo/layers/L0"] (by decide)⟩

/-- A mount-session record, the JSON object `{ref, mountPoint}` written to
`mounts/<base>.json`. -/
structure MountInfo where
  ref : String
  mountPoint : String
deriving DecidableEq

/-- The `mounts/` directory: file base name (without `.json`) paired with
the parsed record. -/
abbrev Sessions := List (String × MountInfo)

/-- Writing `mounts/<key>.json`: overwrite or create, like `saveRef`. -/
def saveSession (m : Sessions) (key : String) (info : MountInfo) : Sessions :=
  if m.any (fun e => e.1 == key) then
    m.map (fun e => if e.1 == key then (key, info) else e)
  else
    m ++ [(key, info)]

/-- Removing `mounts/<key>.json` (`os.Remove`). -/
def removeSession (m : Sessions) (key : String) : Sessions :=
  m.filter (fun e => e.1 != key)

/-- Reading `mounts/<key>.json`. -/
def lookupSession (m : Sessions) (key : String) : Option MountInfo :=
  (m.find? (fun e => e.1 == key)).map (fun e => e.2)

/-- Embedding of `filepath.Base`: strip trailing slashes and keep the last
path component; `"."` for the empty path, `"/"` if everything is slashes. -/
def baseName (p : String) : String :=
  if p = "" then "."
  else
    let l := (p.toList.reverse.dropWhile (fun c => c == '/')).takeWhile
      (fun c => c != '/')
    if l = [] then "/" else String.mk l.reverse

/-- Bool test that `pre` is a prefix of `l`, character by character. -/
def listIsPrefixOf : List Char → List Char → Bool
  | [], _ => true
  | _ :: _, [] => false
  | a :: as, b :: bs => a == b && listIsPrefixOf as bs

/-- Bool test that `needle` occurs as a contiguous substring of `hay`,
the semantics of Go's `strings.Contains`. -/
def listContainsSub : List Char → List Char → Bool
  | [], needle => listIsPrefixOf needle []
  | a :: t, needle => listIsPrefixOf needle (a :: t) || listContainsSub t needle

/-- Go's `strings.Contains` on strings. -/
def strContains (hay needle : String) : Bool :=
  listContainsSub hay.toList needle.toList

/-- Embedding of `isMounted`: a raw substring search of the absolute mount
path in the text of `/proc/mounts` — not a match against whole mount-table
entries. Mount points are taken pre-resolved to absolute paths. -/
def isMounted (procMounts : String) (absPath : String) : Bool :=
  strContains procMounts absPath

/-- OS-level outcomes `Mount` depends on: directory creations, the
`/proc/mounts` text, the overlay mount call, the bind-mount fallback, and
the session-record write. -/
structure MountOracle where
  mkdirMountOk : Bool
  procMounts : String
  mkdirWorkOk : Bool
  overlayOk : Bool
  bindOk : Bool
  writeOk : Bool
deriving DecidableEq

/-- Error kinds `Mount` can return. -/
inductive MountErr where
  | refNotFound
  | mountPointFailed
  | alreadyMounted
  | workDirFailed
  | bindFailed
  | sessionWriteFailed
deriving DecidableEq

/-- Embedding of `Mount`: resolve the ref, create the mount point, check
the live mount table, build the lower list (the fuel mirrors the
`buildLowerDirs` loop), create the work directory, try the overlay mount
and fall back to a bind mount. As in the source, only the successful
overlay path writes the session record keyed by the mount point's base
name — the successful bind fallback returns immediately. `none` means
`buildLowerDirs` never finished. -/
def mount (s : Store) (sess : Sessions) (repo refName mountPoint : String)
    (os : MountOracle) (fuel : ℕ) :
    Option (Except MountErr Unit × Sessions) :=
  match getRef s refName with
  | none => some (.error .refNotFound, sess)
  | some ref =>
    if os.mkdirMountOk = false then some (.error .mountPointFailed, sess)
    else if isMounted os.procMounts mountPoint = true then
      some (.error .alreadyMounted, sess)
    else if (buildLowerDirs s repo ref fuel).isNone = true then none
    else if os.mkdirWorkOk = false then some (.error .workDirFailed, sess)
    else if os.overlayOk = true then
      if os.writeOk = true then
        some (.ok (), saveSession sess (baseName mountPoint)
          ⟨refName, mountPoint⟩)
      else some (.error .sessionWriteFailed, sess)
    else if os.bindOk = true then some (.ok (), sess)
    else some (.error .bindFailed, sess)

theorem mount_getRef_some (s : Store) (sess : Sessions)
    (repo refName mountPoint : String) (os : MountOracle) (fuel : ℕ)
    (ref : Ref) (hgr : getRef s refName = some ref) :
    mount s sess repo refName mountPoint os fuel
      = if os.mkdirMountOk = false then
          some (.error .mountPointFailed, sess)
        else if isMounted os.procMounts mountPoint = true then
          some (.error .alreadyMounted, sess)
        else if (buildLowerDirs s repo ref fuel).isNone = true then none
        else if os.mkdirWorkOk = false then
          some (.error .workDirFailed, sess)
        else if os.overlayOk = true then
          if os.writeOk = true then
            some (.ok (), saveSession sess (baseName mountPoint)
              ⟨refName, mountPoint⟩)
          else some (.error .sessionWriteFailed, sess)
        else if os.bindOk = true then some (.ok (), sess)
        else some (.error .bindFailed, sess) := by
  unfold mount
  rw [hgr]

theorem mount_getRef_none (s : Store) (sess : Sessions)
    (repo refName mountPoint : String) (os : MountOracle) (fuel : ℕ)
    (hgr : getRef s refName = none) :
    mount s sess repo refName mountPoint os fuel
      = some (.error .refNotFound, sess) := by
  unfold mount
  rw [hgr]

/-- Whether a mount outcome is success. -/
def exceptIsOk : Except MountErr Unit → Bool
  | .ok _ => true
  | .error _ => false

/-- Claim C2, amended: when `Mount` returns, the session store is updated
exactly when the call succeeded through the overlay path — then the record
is written under the mount point's base name; every failure leaves the
session store unchanged, and so does a success through the bind-mount
fallback (`overlayOk = false`), which returns before the record is
written. The original claim's parenthesis is exactly the part that fails:
a bind-fallback success persists no session record. -/
theorem C2_mount_session_record (s : Store) (sess : Sessions)
    (repo refName mountPoint : String) (os : MountOracle) (fuel : ℕ)
    (res : Except MountErr Unit) (sess2 : Sessions)
    (h : mount s sess repo refName mountPoint os fuel = some (res, sess2)) :
    sess2 = if exceptIsOk res && os.overlayOk then
        saveSession sess (baseName mountPoint) ⟨refName, mountPoint⟩
      else sess := by
  cases hgr : getRef s refName with
  | none =>
    rw [mount_getRef_none s sess repo refName mountPoint os fuel hgr] at h
    simp only [Option.some.injEq, Prod.mk.injEq] at h
    obtain ⟨hres, hsess⟩ := h
    subst hres
    subst hsess
    rfl
  | some ref =>
    rw [mount_getRef_some s sess repo refName mountPoint os fuel ref hgr] at h
    by_cases h1 : os.mkdirMountOk = false
    · rw [if_pos h1] at h
      simp only [Option.some.injEq, Prod.mk.injEq] at h
      obtain ⟨hres, hsess⟩ := h
      subst hres
      subst hsess
      rfl
    · rw [if_neg h1] at h
      by_cases h2 : isMounted os.procMounts mountPoint = true
      · rw [if_pos h2] at h
        simp only [Option.some.injEq, Prod.mk.injEq] at h
        obtain ⟨hres, hsess⟩ := h
        subst hres
        subst hsess
        rfl
      · rw [if_neg h2] at h
        by_cases hb : (buildLowerDirs s repo ref fuel).isNone = true
        · rw [if_pos hb] at h
          exact absurd h (by simp)
        · rw [if_neg hb] at h
          by_cases h3 : os.mkdirWorkOk = false
          · rw [if_pos h3] at h
            simp only [Option.some.injEq, Prod.mk.injEq] at h
            obtain ⟨hres, hsess⟩ := h
            subst hres
            subst hsess
            rfl
          · rw [if_neg h3] at h
            by_cases h4 : os.overlayOk = true
            · rw [if_pos h4] at h
              by_cases h5 : os.writeOk = true
              · rw [if_pos h5] at h
                simp only [Option.some.injEq, Prod.mk.injEq] at h
                obtain ⟨hres, hsess⟩ := h
                subst hres
                subst hsess
                rw [h4]
                rfl
              · rw [if_neg h5] at h
                simp only [Option.some.injEq, Prod.mk.injEq] at h
                obtain ⟨hres, hsess⟩ := h
                subst hres
                subst hsess
                rfl
            · rw [if_neg h4] at h
              have h4f : os.overlayOk = false := Bool.eq_false_iff.mpr h4
              by_cases h6 : os.bindOk = true
              · rw [if_pos h6] at h
                simp only [Option.some.injEq, Prod.mk.injEq] at h
                obtain ⟨hres, hsess⟩ := h
                subst hres
                subst hsess
                rw [h4f]
                rfl
              · rw [if_neg h6] at h
                simp only [Option.some.injEq, Prod.mk.injEq] at h
                obtain ⟨hres, hsess⟩ := h
                subst hres
                subst hsess
                rfl

/-- Claim C2, counterexample: with the overlay mount failing and the bind
fallback succeeding, `Mount` of `dev` returns success but the session
store is still empty — no record was persisted under the mount point's
base name. -/
theorem C2_counterexample :
    mount demoStore [] "repo" "dev" "/mnt/dev"
        ⟨true, "", true, false, true, true⟩ 3 = some (.ok (), []) ∧
      lookupSession [] (baseName "/mnt/dev") = none :=
  ⟨rfl, rfl⟩

/-- Witness for the amended claim C2 at a concrete input: an all-good
oracle makes `Mount` succeed through the overlay path and the session
store afterwards holds exactly the record under the base name `dev`. -/
theorem C2_witness :
    mount demoStore [] "repo" "dev" "/mnt/dev"
        ⟨true, "", true, true, true, true⟩ 3
      = some (.ok (),
          saveSession [] (baseName "/mnt/dev") ⟨"dev", "/mnt/dev"⟩) ∧
      saveSession [] (baseName "/mnt/dev") ⟨"dev", "/mnt/dev"⟩
        = if exceptIsOk (.ok ())
              && MountOracle.overlayOk ⟨true, "", true, true, true, true⟩ then
            saveSession [] (baseName "/mnt/dev") ⟨"dev", "/mnt/dev"⟩
          else [] :=
  ⟨rfl,
    C2_mount_session_record demoStore [] "repo" "dev" "/mnt/dev"
      ⟨true, "", true, true, true, true⟩ 3 (.ok ())
      (saveSession [] (baseName "/mnt/dev") ⟨"dev", "/mnt/dev"⟩) rfl⟩

/-- Rendering of a `/proc/mounts` table holding one overlay entry per
mounted path. -/
def tableFor (paths : List String) : String :=
  String.join (paths.map
    (fun p => "overlay " ++ p ++ " overlay rw,relatime 0 0\n"))

/-- Claim C10: the mounted-check is a raw substring search of the mount
point's absolute path in the `/proc/mounts` text. Hence with only
`/mnt/dev2` actually mounted, the unmounted point `/mnt/dev` — a proper
substring of the mounted path — is reported as mounted, and `Mount` fails
with the already-in-use error even though the point is free. -/
theorem C10_substring_mounted_check :
    ("/mnt/dev" ∈ ["/mnt/dev2"]) = False ∧
      isMounted (tableFor ["/mnt/dev2"]) "/mnt/dev" = true ∧
      mount demoStore [] "repo" "dev" "/mnt/dev"
          ⟨true, tableFor ["/mnt/dev2"], true, true, true, true⟩ 3
        = some (.error .alreadyMounted, []) :=
  ⟨by simp, by decide, rfl⟩

/-- OS-level outcomes the unmount engine depends on: the `/proc/mounts`
text and, per loop iteration `i`, the error of the normal
`syscall.Unmount` attempt (`none` = success), plus the error of the
detach-style (`MNT_DETACH`) fallback. -/
structure UnmountOracle where
  procMounts : String
  attemptErr : ℕ → Option String
  detachErr : Option String

/-- Observable behaviour of one run of the retry loop: which iterations
performed a normal unmount attempt, the backoff sleeps (in ms, in order),
the iterations that invoked `killProcessesUsingMount`, whether the detach
fallback was tried, the returned result, and whether the session record
file was removed. -/
structure UTrace where
  attempts : List ℕ
  sleeps : List ℕ
  kills : List ℕ
  detachTried : Bool
  result : Except String Unit
  sessRemoved : Bool

/-- The retry loop of `unmountWithOptions`, from iteration `i` with
`fuel = maxRetries - i` iterations left and `lastErr` the last recorded
attempt error. Each iteration `i > 0` first sleeps `100*(i+1)` ms; under
force every iteration `i > 0` also kills holders of the mount; the detach
fallback is tried only on the final iteration after the normal attempt
fails, and its error is not recorded into `lastErr`. -/
def unmountGo (os : UnmountOracle) (force : Bool) (maxRetries : ℕ) :
    ℕ → ℕ → String → UTrace
  | _, 0, lastErr =>
    { attempts := [], sleeps := [], kills := [], detachTried := false,
      result := .error ("failed to unmount after retries: " ++ lastErr),
      sessRemoved := false }
  | i, fuel + 1, _ =>
    let sleeps0 : List ℕ := if 0 < i then [100 * (i + 1)] else []
    let kills0 : List ℕ := if force = true ∧ 0 < i then [i] else []
    match os.attemptErr i with
    | none =>
      { attempts := [i], sleeps := sleeps0, kills := kills0,
        detachTried := false, result := .ok (), sessRemoved := true }
    | some e =>
      if i = maxRetries - 1 then
        match os.detachErr with
        | none =>
          { attempts := [i], sleeps := sleeps0, kills := kills0,
            detachTried := true, result := .ok (), sessRemoved := true }
        | some _ =>
          let rest := unmountGo os force maxRetries (i + 1) fuel e
          { attempts := i :: rest.attempts,
            sleeps := sleeps0 ++ rest.sleeps,
            kills := kills0 ++ rest.kills, detachTried := true,
            result := rest.result, sessRemoved := rest.sessRemoved }
      else
        let rest := unmountGo os force maxRetries (i + 1) fuel e
        { attempts := i :: rest.attempts,
          sleeps := sleeps0 ++ rest.sleeps,
          kills := kills0 ++ rest.kills, detachTried := rest.detachTried,
          result := rest.result, sessRemoved := rest.sessRemoved }

/-- Embedding of `unmountWithOptions`: fail fast when the mount point is
not in the live mount table, otherwise run the retry loop — 3 iterations
normally, 5 under force — and remove the session record keyed by the
mount point's base name exactly when the loop reports an unmount
succeeded. -/
def unmountWithOptions (os : UnmountOracle) (sess : Sessions)
    (mountPoint : String) (force : Bool) :
    Except String Unit × Sessions × UTrace :=
  if isMounted os.procMounts mountPoint = false then
    (.error "mount point not mounted", sess,
      { attempts := [], sleeps := [], kills := [], detachTried := false,
        result := .error "mount point not mounted", sessRemoved := false })
  else
    let m := if force = true then 5 else 3
    let t := unmountGo os force m 0 m ""
    (t.result,
      (if t.sessRemoved = true then
        removeSession sess (baseName mountPoint)
      else sess),
      t)

/-- The backoff sleep performed at the head of loop iteration `i`. -/
def backoffSleeps (i : ℕ) : List ℕ :=
  if 0 < i then [100 * (i + 1)] else []

/-- The kill invocation performed at loop iteration `i`. -/
def forceKills (force : Bool) (i : ℕ) : List ℕ :=
  if force = true ∧ 0 < i then [i] else []

theorem range'_cons (i k : ℕ) :
    List.range' i (k + 1) = i :: List.range' (i + 1) k := rfl

theorem sleeps_cons (i k : ℕ) :
    ((List.range' i (k + 1)).filter (fun j => decide (0 < j))).map
        (fun j => 100 * (j + 1))
      = backoffSleeps i
          ++ ((List.range' (i + 1) k).filter (fun j => decide (0 < j))).map
              (fun j => 100 * (j + 1)) := by
  rw [range'_cons, List.filter_cons]
  by_cases h : 0 < i
  · simp [backoffSleeps, h]
  · simp [backoffSleeps, h]

theorem kills_cons (force : Bool) (i k : ℕ) :
    (List.range' i (k + 1)).filter (fun j => force && decide (0 < j))
      = forceKills force i
          ++ (List.range' (i + 1) k).filter
              (fun j => force && decide (0 < j)) := by
  rw [range'_cons, List.filter_cons]
  by_cases h : force = true ∧ 0 < i
  · simp [forceKills, h, h.1, h.2]
  · have hfalse : (force && decide (0 < i)) = false := by
      cases hf : force
      · rfl
      · have hi : ¬ 0 < i := fun hi => h ⟨hf, hi⟩
        simp [hi]
    simp [forceKills, h, hfalse]

/-- Shape of one run of the retry loop: starting at iteration `i` with
`fuel` iterations allowed, some consecutive run `i, i+1, …, i+k-1` of at
most `fuel` iterations executes; the backoff sleeps are exactly
`100*(j+1)` ms for the executed iterations `j > 0`, and the kill
invocations are exactly the executed iterations `j > 0` in force mode. -/
theorem unmountGo_char (os : UnmountOracle) (force : Bool) (m : ℕ) :
    ∀ fuel i le, ∃ k, k ≤ fuel ∧
      (unmountGo os force m i fuel le).attempts = List.range' i k ∧
      (unmountGo os force m i fuel le).sleeps
        = ((List.range' i k).filter (fun j => decide (0 < j))).map
            (fun j => 100 * (j + 1)) ∧
      (unmountGo os force m i fuel le).kills
        = (List.range' i k).filter (fun j => force && decide (0 < j)) := by
  intro fuel
  induction fuel with
  | zero =>
    intro i le
    exact ⟨0, le_rfl, rfl, rfl, rfl⟩
  | succ fuel ih =>
    intro i le
    rw [unmountGo]
    cases ha : os.attemptErr i with
    | none =>
      simp only [ha]
      refine ⟨1, by omega, rfl, ?_, ?_⟩
      · rw [sleeps_cons i 0]
        simp [backoffSleeps]
      · rw [kills_cons force i 0]
        simp [forceKills]
    | some e =>
      simp only [ha]
      by_cases hd : i = m - 1
      · rw [if_pos hd]
        cases hdet : os.detachErr with
        | none =>
          simp only [hdet]
          refine ⟨1, by omega, rfl, ?_, ?_⟩
          · rw [sleeps_cons i 0]
            simp [backoffSleeps]
          · rw [kills_cons force i 0]
            simp [forceKills]
        | some d =>
          simp only [hdet]
          obtain ⟨k, hk, hatt, hsl, hki⟩ := ih (i + 1) e
          refine ⟨k + 1, by omega, ?_, ?_, ?_⟩
          · show i :: (unmountGo os force m (i + 1) fuel e).attempts
              = List.range' i (k + 1)
            rw [hatt, range'_cons]
          · show (if 0 < i then [100 * (i + 1)] else [])
                ++ (unmountGo os force m (i + 1) fuel e).sleeps = _
            rw [hsl, sleeps_cons i k]
            rfl
          · show (if force = true ∧ 0 < i then [i] else [])
                ++ (unmountGo os force m (i + 1) fuel e).kills = _
            rw [hki, kills_cons force i k]
            rfl
      · rw [if_neg hd]
        obtain ⟨k, hk, hatt, hsl, hki⟩ := ih (i + 1) e
        refine ⟨k + 1, by omega, ?_, ?_, ?_⟩
        · show i :: (unmountGo os force m (i + 1) fuel e).attempts
            = List.range' i (k + 1)
          rw [hatt, range'_cons]
        · show (if 0 < i then [100 * (i + 1)] else [])
              ++ (unmountGo os force m (i + 1) fuel e).sleeps = _
          rw [hsl, sleeps_cons i k]
          rfl
        · show (if force = true ∧ 0 < i then [i] else [])
              ++ (unmountGo os force m (i + 1) fuel e).kills = _
          rw [hki, kills_cons force i k]
          rfl

theorem filter_pos_range' (k : ℕ) :
    (List.range' 0 k).filter (fun j => decide (0 < j))
      = (List.range' 0 k).drop 1 := by
  cases k with
  | zero => rfl
  | succ k' =>
    rw [range'_cons, List.filter_cons, if_neg (by simp)]
    show (List.range' 1 k').filter (fun j => decide (0 < j))
      = List.range' 1 k'
    rw [List.filter_eq_self]
    intro a ha
    have := (List.mem_range'_1.mp ha).1
    simpa using this

/-- Claim C7: the retry loop runs at most 3 iterations without force and
at most 5 under force; the iterations executed are consecutive starting
from the first, and each retry after the first first sleeps a backoff of
`100·(i+1)` ms — i.e. the attempt's 1-based index times 100 ms. -/
theorem C7_unmount_retry_bounds (os : UnmountOracle) (sess : Sessions)
    (mountPoint : String) (force : Bool) :
    (unmountWithOptions os sess mountPoint force).2.2.attempts.length
        ≤ (if force = true then 5 else 3) ∧
      (unmountWithOptions os sess mountPoint force).2.2.attempts
        = List.range
            (unmountWithOptions os sess mountPoint force).2.2.attempts.length ∧
      (unmountWithOptions os sess mountPoint force).2.2.sleeps
        = ((unmountWithOptions os sess mountPoint
            force).2.2.attempts.drop 1).map (fun j => 100 * (j + 1)) := by
  unfold unmountWithOptions
  by_cases hm : isMounted os.procMounts mountPoint = false
  · rw [if_pos hm]
    refine ⟨?_, rfl, rfl⟩
    show 0 ≤ _
    omega
  · rw [if_neg hm]
    obtain ⟨k, hk, hatt, hsl, hki⟩ :=
      unmountGo_char os force (if force = true then 5 else 3)
        (if force = true then 5 else 3) 0 ""
    refine ⟨?_, ?_, ?_⟩
    · show (unmountGo os force (if force = true then 5 else 3) 0
          (if force = true then 5 else 3) "").attempts.length ≤ _
      rw [hatt]
      simpa using hk
    · show (unmountGo os force (if force = true then 5 else 3) 0
            (if force = true then 5 else 3) "").attempts
        = List.range (unmountGo os force (if force = true then 5 else 3) 0
            (if force = true then 5 else 3) "").attempts.length
      rw [hatt]
      simp [List.range_eq_range']
    · show (unmountGo os force (if force = true then 5 else 3) 0
            (if force = true then 5 else 3) "").sleeps
        = ((unmountGo os force (if force = true then 5 else 3) 0
            (if force = true then 5 else 3) "").attempts.drop 1).map
            (fun j => 100 * (j + 1))
      rw [hatt, hsl, filter_pos_range' k]

/-- Claim C8: a non-force unmount never invokes process termination, no
matter how the attempts fail; under force, kills happen only at loop
iterations after the first (index at least 1, i.e. from the second
attempt on). -/
theorem C8_kill_policy (os : UnmountOracle) (sess : Sessions)
    (mountPoint : String) (force : Bool) :
    (force = false →
        (unmountWithOptions os sess mountPoint force).2.2.kills = []) ∧
      ∀ j ∈ (unmountWithOptions os sess mountPoint force).2.2.kills,
        1 ≤ j := by
  unfold unmountWithOptions
  by_cases hm : isMounted os.procMounts mountPoint = false
  · rw [if_pos hm]
    refine ⟨fun _ => rfl, ?_⟩
    intro j hj
    exact absurd hj (by simp)
  · rw [if_neg hm]
    obtain ⟨k, hk, hatt, hsl, hki⟩ :=
      unmountGo_char os force (if force = true then 5 else 3)
        (if force = true then 5 else 3) 0 ""
    constructor
    · intro hf
      show (unmountGo os force (if force = true then 5 else 3) 0
          (if force = true then 5 else 3) "").kills = []
      rw [hki]
      rw [List.filter_eq_nil_iff]
      intro a _
      simp [hf]
    · intro j hj
      have hj2 : j ∈ (unmountGo os force (if force = true then 5 else 3) 0
          (if force = true then 5 else 3) "").kills := hj
      rw [hki] at hj2
      have := (List.mem_filter.mp hj2).2
      rw [Bool.and_eq_true] at this
      have := of_decide_eq_true this.2
      omega

theorem unmountGo_all_fail (os : UnmountOracle) (force : Bool) (m : ℕ) :
    ∀ fuel i le e,
      (∀ j, i ≤ j → j < i + fuel → os.attemptErr j ≠ none) →
      os.detachErr ≠ none →
      ((fuel = 0 ∧ e = le) ∨
        (0 < fuel ∧ os.attemptErr (i + fuel - 1) = some e)) →
      (unmountGo os force m i fuel le).result
          = .error ("failed to unmount after retries: " ++ e) ∧
        (unmountGo os force m i fuel le).sessRemoved = false := by
  intro fuel
  induction fuel with
  | zero =>
    intro i le e hall hdet hlast
    rcases hlast with ⟨_, rfl⟩ | ⟨h0, _⟩
    · exact ⟨rfl, rfl⟩
    · omega
  | succ fuel ih =>
    intro i le e hall hdet hlast
    rw [unmountGo]
    cases ha : os.attemptErr i with
    | none => exact absurd ha (hall i le_rfl (by omega))
    | some e0 =>
      simp only [ha]
      have hlast2 : (fuel = 0 ∧ e = e0) ∨
          (0 < fuel ∧ os.attemptErr (i + 1 + fuel - 1) = some e) := by
        rcases hlast with ⟨hf0, _⟩ | ⟨hpos, hl⟩
        · omega
        · cases fuel with
          | zero =>
            left
            refine ⟨rfl, ?_⟩
            have hidx : i + (0 + 1) - 1 = i := by omega
            rw [hidx] at hl
            rw [ha] at hl
            exact (Option.some.inj hl).symm
          | succ f =>
            right
            refine ⟨by omega, ?_⟩
            have hidx : i + 1 + (f + 1) - 1 = i + (f + 1 + 1) - 1 := by omega
            rw [hidx]
            exact hl
      have hall2 : ∀ j, i + 1 ≤ j → j < i + 1 + fuel →
          os.attemptErr j ≠ none :=
        fun j h1 h2 => hall j (by omega) (by omega)
      by_cases hd : i = m - 1
      · rw [if_pos hd]
        cases hdet2 : os.detachErr with
        | none => exact absurd hdet2 hdet
        | some d =>
          simp only [hdet2]
          obtain ⟨hres, hrem⟩ := ih (i + 1) e0 e hall2 hdet hlast2
          exact ⟨hres, hrem⟩
      · rw [if_neg hd]
        obtain ⟨hres, hrem⟩ := ih (i + 1) e0 e hall2 hdet hlast2
        exact ⟨hres, hrem⟩

theorem unmountGo_removed_ok (os : UnmountOracle) (force : Bool) (m : ℕ) :
    ∀ fuel i le, (unmountGo os force m i fuel le).sessRemoved = true →
      (unmountGo os force m i fuel le).result = .ok () := by
  intro fuel
  induction fuel with
  | zero =>
    intro i le h
    exact Bool.noConfusion h
  | succ fuel ih =>
    intro i le h
    rw [unmountGo] at h ⊢
    cases ha : os.attemptErr i with
    | none =>
      simp only [ha]
    | some e =>
      simp only [ha] at h ⊢
      by_cases hd : i = m - 1
      · rw [if_pos hd] at h ⊢
        cases hdet : os.detachErr with
        | none =>
          simp only [hdet]
        | some d =>
          simp only [hdet] at h ⊢
          exact ih (i + 1) e h
      · rw [if_neg hd] at h ⊢
        exact ih (i + 1) e h

/-- Claim C9: when the mount point is in the mount table but every normal
unmount attempt and the detach fallback all fail, `unmountWithOptions`
returns the failure wrapping the final attempt's underlying error and the
session store is left untouched; and in every run whatsoever, the session
record is removed only when an unmount actually reported success. -/
theorem C9_unmount_failure_keeps_session (os : UnmountOracle)
    (sess : Sessions) (mountPoint : String) (force : Bool) :
    (∀ e, isMounted os.procMounts mountPoint = true →
        (∀ j, j < (if force = true then 5 else 3) →
          os.attemptErr j ≠ none) →
        os.detachErr ≠ none →
        os.attemptErr ((if force = true then 5 else 3) - 1) = some e →
        (unmountWithOptions os sess mountPoint force).1
            = .error ("failed to unmount after retries: " ++ e) ∧
          (unmountWithOptions os sess mountPoint force).2.1 = sess) ∧
      ((unmountWithOptions os sess mountPoint force).2.1 ≠ sess →
        (unmountWithOptions os sess mountPoint force).1 = .ok ()) := by
  constructor
  · intro e hm hall hdet hlast
    unfold unmountWithOptions
    rw [if_neg (by simp [hm])]
    have hm0 : 0 < (if force = true then 5 else 3) := by
      cases force <;> simp
    obtain ⟨hres, hrem⟩ := unmountGo_all_fail os force
      (if force = true then 5 else 3) (if force = true then 5 else 3) 0 "" e
      (fun j h1 h2 => hall j (by omega)) hdet
      (Or.inr ⟨hm0, by rw [Nat.zero_add]; exact hlast⟩)
    constructor
    · exact hres
    · show (if (unmountGo os force (if force = true then 5 else 3) 0
            (if force = true then 5 else 3) "").sessRemoved = true then
          removeSession sess (baseName mountPoint)
        else sess) = sess
      rw [hrem]
      rw [if_neg (by simp)]
  · intro hneq
    unfold unmountWithOptions at hneq ⊢
    by_cases hm : isMounted os.procMounts mountPoint = false
    · rw [if_pos hm] at hneq
      exact absurd rfl hneq
    · rw [if_neg hm] at hneq ⊢
      by_cases hrem : (unmountGo os force (if force = true then 5 else 3) 0
          (if force = true then 5 else 3) "").sessRemoved = true
      · exact unmountGo_removed_ok os force (if force = true then 5 else 3)
          (if force = true then 5 else 3) 0 "" hrem
      · exfalso
        apply hneq
        show (if (unmountGo os force (if force = true then 5 else 3) 0
            (if force = true then 5 else 3) "").sessRemoved = true then
          removeSession sess (baseName mountPoint)
        else sess) = sess
        rw [if_neg hrem]

/-- A stuck-mount oracle: the point is mounted, every unmount attempt and
the detach fallback fail with `device busy`. -/
def failOracle : UnmountOracle :=
  ⟨"/mnt/x", fun _ => some "device busy", some "device busy"⟩

/-- A one-record session store for the stuck mount. -/
def demoSessions : Sessions :=
  [("x", ⟨"dev", "/mnt/x"⟩)]

/-- Witness for claim C9 at a concrete input: with all attempts failing,
the call fails wrapping the last error and the session store is intact. -/
theorem C9_witness :
    (unmountWithOptions failOracle demoSessions "/mnt/x" false).1
        = .error ("failed to unmount after retries: " ++ "device busy") ∧
      (unmountWithOptions failOracle demoSessions "/mnt/x" false).2.1
        = demoSessions :=
  (C9_unmount_failure_keeps_session failOracle demoSessions "/mnt/x"
      false).1 "device busy" (by decide)
    (fun j _ hc => Option.noConfusion hc)
    (fun hc => Option.noConfusion hc) rfl

/-- Witness for claim C8 at a concrete input: the stuck non-force unmount
terminates no process. -/
theorem C8_witness :
    (unmountWithOptions failOracle demoSessions "/mnt/x" false).2.2.kills
        = [] ∧
      ∀ j ∈ (unmountWithOptions failOracle demoSessions
          "/mnt/x" false).2.2.kills, 1 ≤ j :=
  ⟨(C8_kill_policy failOracle demoSessions "/mnt/x" false).1 rfl,
    (C8_kill_policy failOracle demoSessions "/mnt/x" false).2⟩

/-- Embedding of `HasChildren`: scan all ref records (as `ListRefs` lists
them) for one whose `parent` field equals the given name — including,
notably, the record stored under that very name. -/
def hasChildrenB (s : Store) (refName : String) : Bool :=
  s.any (fun e => e.2.parent == refName)

/-- Embedding of `IsMountedRef`: scan the mount-session records for one
whose `ref` field equals the given name. -/
def isMountedRefB (sess : Sessions) (refName : String) : Bool :=
  sess.any (fun e => e.2.ref == refName)

/-- On-disk state `DeleteRef` touches: the ref store, the session records,
and the sets of existing layer and work directories (by layer id). -/
structure RepoState where
  refs : Store
  sessions : Sessions
  layers : List String
  work : List String
deriving DecidableEq

/-- Error kinds of `DeleteRef`. -/
inductive DeleteErr where
  | refNotFound
  | hasChildren
  | refMounted
deriving DecidableEq

/-- Removing `refs/<name>.json`. -/
def removeRefFile (s : Store) (name : String) : Store :=
  s.filter (fun e => e.1 != name)

/-- Embedding of `DeleteRef`: resolve the ref; unless forced, refuse when
some record lists the name as parent or some session record references
it; then remove the ref file, the layer directory, and (best effort) the
work directory. Every error is returned before anything is removed. -/
def deleteRef (st : RepoState) (name : String) (force : Bool) :
    Except DeleteErr Unit × RepoState :=
  match getRef st.refs name with
  | none => (.error .refNotFound, st)
  | some ref =>
    if force = false ∧ hasChildrenB st.refs name = true then
      (.error .hasChildren, st)
    else if force = false ∧ isMountedRefB st.sessions name = true then
      (.error .refMounted, st)
    else
      (.ok (),
        { refs := removeRefFile st.refs name,
          sessions := st.sessions,
          layers := st.layers.filter (fun d => d != ref.layerID),
          work := st.work.filter (fun d => d != ref.layerID) })

theorem deleteRef_getRef_some (st : RepoState) (name : String) (force : Bool)
    (ref : Ref) (hgr : getRef st.refs name = some ref) :
    deleteRef st name force
      = if force = false ∧ hasChildrenB st.refs name = true then
          (.error .hasChildren, st)
        else if force = false ∧ isMountedRefB st.sessions name = true then
          (.error .refMounted, st)
        else
          (.ok (),
            { refs := removeRefFile st.refs name,
              sessions := st.sessions,
              layers := st.layers.filter (fun d => d != ref.layerID),
              work := st.work.filter (fun d => d != ref.layerID) }) := by
  unfold deleteRef
  rw [hgr]

theorem deleteRef_getRef_none (st : RepoState) (name : String) (force : Bool)
    (hgr : getRef st.refs name = none) :
    deleteRef st name force = (.error .refNotFound, st) := by
  unfold deleteRef
  rw [hgr]

/-- Claim C6, amended: with `force = false`, `DeleteRef` fails with the
not-found error when the ref is absent; otherwise it fails with the
has-children error when any ref record — including the record of the ref
itself — lists the name as its parent; otherwise it fails with the
mounted error when any mount-session record references the name (decided
by scanning session records, not the live mount table); and on every
failure the repository state — ref records, session records, layer and
work directories — is returned unchanged. -/
theorem C6_deleteRef_guards (st : RepoState) (name : String) :
    (getRef st.refs name = none →
        deleteRef st name false = (.error .refNotFound, st)) ∧
      (∀ r, getRef st.refs name = some r →
        hasChildrenB st.refs name = true →
        deleteRef st name false = (.error .hasChildren, st)) ∧
      (∀ r, getRef st.refs name = some r →
        hasChildrenB st.refs name = false →
        isMountedRefB st.sessions name = true →
        deleteRef st name false = (.error .refMounted, st)) ∧
      (∀ e st2, deleteRef st name false = (.error e, st2) → st2 = st) := by
  refine ⟨?_, ?_, ?_, ?_⟩
  · intro hgr
    exact deleteRef_getRef_none st name false hgr
  · intro r hgr hch
    rw [deleteRef_getRef_some st name false r hgr]
    rw [if_pos ⟨rfl, hch⟩]
  · intro r hgr hch hmnt
    rw [deleteRef_getRef_some st name false r hgr]
    rw [if_neg (by simp [hch]), if_pos ⟨rfl, hmnt⟩]
  · intro e st2 h
    cases hgr : getRef st.refs name with
    | none =>
      rw [deleteRef_getRef_none st name false hgr] at h
      have := congrArg Prod.snd h
      exact this.symm
    | some r =>
      rw [deleteRef_getRef_some st name false r hgr] at h
      by_cases h1 : (false = false ∧ hasChildrenB st.refs name = true)
      · rw [if_pos h1] at h
        have := congrArg Prod.snd h
        exact this.symm
      · rw [if_neg h1] at h
        by_cases h2 : (false = false ∧ isMountedRefB st.sessions name = true)
        · rw [if_pos h2] at h
          have := congrArg Prod.snd h
          exact this.symm
        · rw [if_neg h2] at h
          have := congrArg Prod.fst h
          exact absurd this.symm (by simp)

/-- A repository state holding only the self-parented ref `a`, with a
session record referencing `a`. -/
def selfState : RepoState :=
  ⟨[("a", ⟨"a", "a", "LA", []⟩)], [("m", ⟨"a", "/mnt/a"⟩)], ["LA"], []⟩

/-- Claim C6, counterexample: in `selfState` no *other* ref lists `a` as
parent (the only record with parent `a` is `a` itself) while a session
record does reference `a`, so the claim predicts the mounted error — but
`HasChildren` also counts the ref itself, and `DeleteRef` fails with the
has-children error instead. -/
theorem C6_counterexample :
    selfState.refs.all (fun e => e.1 == "a" || e.2.parent != "a") = true ∧
      isMountedRefB selfState.sessions "a" = true ∧
      deleteRef selfState "a" false = (.error .hasChildren, selfState) :=
  ⟨by decide, by decide, rfl⟩

/-- A repository state over the demo store: `base` has the child `dev`,
and `dev` is recorded as mounted. -/
def demoState : RepoState :=
  ⟨demoStore, [("m", ⟨"dev", "/mnt/dev"⟩)], ["L0", "L1"], []⟩

/-- Witness for the amended claim C6 at a concrete input: deleting `base`
without force fails with the has-children error and changes nothing. -/
theorem C6_witness :
    getRef demoState.refs "base" = some ⟨"base", "", "L0", []⟩ ∧
      hasChildrenB demoState.refs "base" = true ∧
      deleteRef demoState "base" false = (.error .hasChildren, demoState) :=
  ⟨by decide, by decide,
    (C6_deleteRef_guards demoState "base").2.1 ⟨"base", "", "L0", []⟩
      (by decide) (by decide)⟩

end GoTree
